import Mathlib

/-
Shallow embedding of the core of `src/dashboard.py` (statcast-dashboard).

Conventions of the embedding:
* A pandas row of the batted-ball-event table is a `BBE` record; a missing
  (NaN) numeric cell is `none`, a present value is `some q` with `q : ℚ`
  (all numeric computations of the claims are exact, so rationals model the
  float arithmetic faithfully for them).
* A pandas `groupby("batter_name")` enumerates groups in sorted key order
  (pandas default `sort=True`); a group's rows are the rows of the frame
  whose `batter_name` equals the key, in frame order.
* A pandas Series produced by `groupby(...).apply(f)` is modelled as the
  association list `List (String × α)` over the sorted group keys.
* `np.nanmedian` / `np.nanpercentile` drop the `none` entries and return
  `none` (NaN) when nothing remains, mirroring numpy.
* `sp.stats.percentileofscore` is modelled with its scipy defaults
  `kind='rank'` and `nan_policy='propagate'`: a NaN score or any NaN in the
  distribution (or an empty distribution) yields NaN, otherwise the result
  is `(left + right + plus1) * (50 / n)` with `left` the strict-less count,
  `right` the less-or-equal count and `plus1 = 1` exactly when some entry
  equals the score.
* Elementwise float comparisons such as `x.launch_angle >= 15` are `false`
  on a NaN (`none`) cell, as in numpy/pandas.
* A Python exception escaping the comparison computation is modelled with
  `Except`: `len(...) / len(hitter)` with `len(hitter) = 0` raises
  `ZeroDivisionError` (integer division by zero in Python).
-/

/- One row of the batted-ball-event table (`bbes`). -/
structure BBE where
  batter_name : String
  launch_speed : Option ℚ
  launch_angle : Option ℚ
deriving DecidableEq

/- The rows of `bbes[bbes["batter_name"] == p]`, in frame order. -/
def playerEvents (bbes : List BBE) (p : String) : List BBE :=
  bbes.filter (fun e => decide (e.batter_name = p))

/- `len(bbes[bbes["batter_name"] == p])`: the number of events of player `p`. -/
def countEvents (bbes : List BBE) (p : String) : ℕ :=
  (playerEvents bbes p).length

/- Distinct values of a column in order of first appearance
(pandas `Series.unique()`). -/
def uniqueFirst : List String → List String
  | [] => []
  | n :: rest => n :: (uniqueFirst rest).filter (fun m => decide (¬ m = n))

/- Lexicographic comparison of names by their character sequences; this
is exactly the standard `String` order (see `nameLe_iff`), phrased on the
underlying character lists. -/
def nameLe (a b : String) : Bool := !(decide (b.data < a.data))

/- The sorted distinct group keys of `bbes.groupby("batter_name")`
(pandas sorts group keys by default). -/
def groupKeys (bbes : List BBE) : List String :=
  List.insertionSort (fun a b : String => nameLe a b = true)
    (uniqueFirst (bbes.map (fun e => e.batter_name)))

/- Median of an already sorted list, as `np.median` computes it:
the mean of the order statistics at positions `(n-1)/2` and `n/2`. -/
def medianOfSorted (s : List ℚ) : Option ℚ :=
  if s.length = 0 then none
  else some ((s.getD ((s.length - 1) / 2) 0 + s.getD (s.length / 2) 0) / 2)

/- `np.nanmedian`: drop NaN entries, sort, take the median;
NaN when no value remains. -/
def nanmedian (xs : List (Option ℚ)) : Option ℚ :=
  medianOfSorted (List.insertionSort (fun a b : ℚ => a ≤ b) (xs.filterMap id))

/- `np.nanpercentile(xs, 90)`: drop NaN entries, sort, then linearly
interpolate at the virtual index `0.9 * (n - 1)` (numpy's default
"linear" interpolation); NaN when no value remains. -/
def nanpercentile90 (xs : List (Option ℚ)) : Option ℚ :=
  let s := List.insertionSort (fun a b : ℚ => a ≤ b) (xs.filterMap id)
  if s.length = 0 then none
  else
    let i := 9 * (s.length - 1) / 10
    let j := (9 * (s.length - 1) + 9) / 10
    let g : ℚ := ((9 * (s.length - 1) : ℕ) : ℚ) / 10 - (i : ℚ)
    some (s.getD i 0 + g * (s.getD j 0 - s.getD i 0))

/- `get_median_launch_speeds` (dashboard.py line 33): per-player
`np.nanmedian` of `launch_speed`, one entry per sorted group key. -/
def get_median_launch_speeds (bbes : List BBE) : List (String × Option ℚ) :=
  (groupKeys bbes).map (fun p =>
    (p, nanmedian ((playerEvents bbes p).map (fun e => e.launch_speed))))

/- `get_90th_launch_speeds` (line 38): per-player `np.nanpercentile(·, 90)`
of `launch_speed`. -/
def get_90th_launch_speeds (bbes : List BBE) : List (String × Option ℚ) :=
  (groupKeys bbes).map (fun p =>
    (p, nanpercentile90 ((playerEvents bbes p).map (fun e => e.launch_speed))))

/- `get_median_launch_angles` (line 44): per-player `np.nanmedian` of
`launch_angle`. -/
def get_median_launch_angles (bbes : List BBE) : List (String × Option ℚ) :=
  (groupKeys bbes).map (fun p =>
    (p, nanmedian ((playerEvents bbes p).map (fun e => e.launch_angle))))

/- The row predicate `(x.launch_angle >= 15) & (x.launch_angle <= 40)`;
false on a missing angle. -/
def optimalAngle (e : BBE) : Bool :=
  match e.launch_angle with
  | some a => decide (15 ≤ a) && decide (a ≤ 40)
  | none => false

/- The row predicate `x.launch_speed >= 95`; false on a missing speed. -/
def hardHit (e : BBE) : Bool :=
  match e.launch_speed with
  | some s => decide (95 ≤ s)
  | none => false

/- The row predicate
`(x.launch_speed >= 95) & (x.launch_angle >= 15) & (x.launch_angle <= 40)`. -/
def isBarrel (e : BBE) : Bool :=
  (match e.launch_speed with
    | some s => decide (95 ≤ s)
    | none => false)
  && (match e.launch_angle with
    | some a => decide (15 ≤ a)
    | none => false)
  && (match e.launch_angle with
    | some a => decide (a ≤ 40)
    | none => false)

/- `get_optimal_pcts` (line 48): per player,
`len(group in optimal range) / len(group) * 100`. -/
def get_optimal_pcts (bbes : List BBE) : List (String × ℚ) :=
  (groupKeys bbes).map (fun p =>
    (p, ((playerEvents bbes p).countP optimalAngle : ℚ)
      / ((playerEvents bbes p).length : ℚ) * 100))

/- `get_hardhit_pcts` (line 64): per player,
`len(group hit >= 95) / len(group) * 100`. -/
def get_hardhit_pcts (bbes : List BBE) : List (String × ℚ) :=
  (groupKeys bbes).map (fun p =>
    (p, ((playerEvents bbes p).countP hardHit : ℚ)
      / ((playerEvents bbes p).length : ℚ) * 100))

/- `get_barrel_pcts` (line 80): per player,
`len(group hit >= 95 in optimal range) / len(group) * 100`. -/
def get_barrel_pcts (bbes : List BBE) : List (String × ℚ) :=
  (groupKeys bbes).map (fun p =>
    (p, ((playerEvents bbes p).countP isBarrel : ℚ)
      / ((playerEvents bbes p).length : ℚ) * 100))

/- `bbes.groupby("batter_name").filter(lambda x: len(x) >= minCount)`
(line 103 with `minCount = 50`): keep, in frame order, the rows of players
whose total event count in the original frame reaches `minCount`. -/
def filterMinEvents (bbes : List BBE) (minCount : ℕ) : List BBE :=
  bbes.filter (fun e => decide (minCount ≤ countEvents bbes e.batter_name))

/- `series.value_counts()` (line 125): the distinct values with their
occurrence counts, ordered by descending count (pandas default
`sort=True, ascending=False`; ties keep first-appearance order). -/
def value_counts (names : List String) : List (String × ℕ) :=
  List.insertionSort (fun a b : String × ℕ => b.2 ≤ a.2)
    ((uniqueFirst names).map (fun p => (p, names.countP (fun q => decide (q = p)))))

/- The `league_values` DataFrame of `get_data` (lines 116-127), stored
column-wise exactly as the source builds it: each field is one column,
row `i` of the table is the `i`-th entry of every column. -/
structure LeagueValues where
  hitter_name : List String
  median_launch_speed : List (Option ℚ)
  launch_speed_90th : List (Option ℚ)
  median_launch_angle : List (Option ℚ)
  optimal_pct : List ℚ
  hard_hit_pct : List ℚ
  barrel_pct : List ℚ
  BBEs : List ℕ
deriving DecidableEq

/- `get_data` (line 98), with the parquet read replaced by the in-memory
input table: filter out players with fewer than 50 events, sort by
`batter_name`, then assemble the per-player league table column by column.
`hitter_name` is `unique()` of the sorted name column (first-appearance
order); the six metric columns are groupby results (sorted key order);
`BBEs` is `value_counts()` (descending-count order). -/
def get_data (input : List BBE) : List BBE × LeagueValues :=
  let bbes := filterMinEvents input 50
  let bbes2 := List.insertionSort
    (fun a b : BBE => nameLe a.batter_name b.batter_name = true) bbes
  (bbes2,
    { hitter_name := uniqueFirst (bbes2.map (fun e => e.batter_name))
      median_launch_speed := (get_median_launch_speeds bbes2).map (fun r => r.2)
      launch_speed_90th := (get_90th_launch_speeds bbes2).map (fun r => r.2)
      median_launch_angle := (get_median_launch_angles bbes2).map (fun r => r.2)
      optimal_pct := (get_optimal_pcts bbes2).map (fun r => r.2)
      hard_hit_pct := (get_hardhit_pcts bbes2).map (fun r => r.2)
      barrel_pct := (get_barrel_pcts bbes2).map (fun r => r.2)
      BBEs := (value_counts (bbes2.map (fun e => e.batter_name))).map (fun r => r.2) })

/- The elementwise comparison `a < score` on a column cell: false on NaN. -/
def optLt (x : Option ℚ) (v : ℚ) : Bool :=
  match x with
  | some y => decide (y < v)
  | none => false

/- The elementwise comparison `a <= score` on a column cell: false on NaN. -/
def optLe (x : Option ℚ) (v : ℚ) : Bool :=
  match x with
  | some y => decide (y ≤ v)
  | none => false

/- `sp.stats.percentileofscore(a, score)` with scipy's defaults
`kind='rank'`, `nan_policy='propagate'` (lines 180-183, 261-264):
NaN score, a NaN entry in `a`, or an empty `a` give NaN; otherwise the
result is `(left + right + plus1) * (50 / n)` where `left` counts entries
`< score`, `right` counts entries `<= score`, and `plus1` is 1 when some
entry equals the score. -/
def percentileofscore (a : List (Option ℚ)) (score : Option ℚ) : Option ℚ :=
  match score with
  | none => none
  | some v =>
    if a.any (fun x => decide (x = none)) then none
    else if a.length = 0 then none
    else
      some (((a.countP (fun x => optLt x v) + a.countP (fun x => optLe x v)
        + (if a.countP (fun x => optLt x v) < a.countP (fun x => optLe x v)
            then 1 else 0) : ℕ) : ℚ)
        * (50 / (a.length : ℚ)))

/- Errors that can escape the individual-player comparison (there is no
PlayerNotFound anywhere in the source; Python's integer division by zero
raises ZeroDivisionError). -/
inductive PyError where
  | PlayerNotFound
  | ZeroDivisionError
deriving DecidableEq

/- The `summary_stats` comparison record of the Individual Player view
(lines 164-196): the player's values, the league reference values, and the
player's percentile ranks for the four speed metrics. -/
structure SummaryStats where
  player_median : Option ℚ
  player_90th : Option ℚ
  player_hard_hit_pct : ℚ
  player_barrel_pct : ℚ
  league_median : Option ℚ
  league_90th : Option ℚ
  league_hard_hit_pct : Option ℚ
  league_barrel_pct : Option ℚ
  median_percentile : Option ℚ
  percentile_90th : Option ℚ
  hardhit_percentile : Option ℚ
  barrel_percentile : Option ℚ
deriving DecidableEq

/- The Individual Player comparison computation (lines 150-196) for a
requested player name: filter that player's events, compute league and
player values, then percentile ranks.  When the name has zero events the
source reaches `len(hitter[...]) / len(hitter)` (line 172) with
`len(hitter) = 0` and Python raises `ZeroDivisionError`; the earlier
`np.nanmedian` / `np.nanpercentile` calls on the empty selection only warn
and return NaN. -/
def comparePlayer (bbes : List BBE) (league : LeagueValues) (player : String) :
    Except PyError SummaryStats :=
  let hitter := playerEvents bbes player
  let league_median := nanmedian league.median_launch_speed
  let league_90th := nanmedian league.launch_speed_90th
  let league_hard_hit_pct := nanmedian (league.hard_hit_pct.map some)
  let league_barrel_pct := nanmedian (league.barrel_pct.map some)
  let player_median := nanmedian (hitter.map (fun e => e.launch_speed))
  let player_90th := nanpercentile90 (hitter.map (fun e => e.launch_speed))
  if hitter.length = 0 then .error .ZeroDivisionError
  else
    let player_hard_hit_pct : ℚ :=
      (hitter.countP hardHit : ℚ) / (hitter.length : ℚ) * 100
    let player_barrel_pct : ℚ :=
      (hitter.countP isBarrel : ℚ) / (hitter.length : ℚ) * 100
    .ok
      { player_median := player_median
        player_90th := player_90th
        player_hard_hit_pct := player_hard_hit_pct
        player_barrel_pct := player_barrel_pct
        league_median := league_median
        league_90th := league_90th
        league_hard_hit_pct := league_hard_hit_pct
        league_barrel_pct := league_barrel_pct
        median_percentile := percentileofscore league.median_launch_speed player_median
        percentile_90th := percentileofscore league.launch_speed_90th player_90th
        hardhit_percentile :=
          percentileofscore (league.hard_hit_pct.map some) (some player_hard_hit_pct)
        barrel_percentile :=
          percentileofscore (league.barrel_pct.map some) (some player_barrel_pct) }

/- Modelled from the spec: the "standard statistical median" of a sorted
list, written the way the spec states it — the middle value for odd
length, the average of the two middle values for even length, NaN for the
empty list. -/
def specMedianOfSorted (s : List ℚ) : Option ℚ :=
  if s.length = 0 then none
  else if s.length % 2 = 1 then some (s.getD (s.length / 2) 0)
  else some ((s.getD (s.length / 2 - 1) 0 + s.getD (s.length / 2) 0) / 2)

/- Modelled from the spec: the standard statistical median of a list of
values (sort, then take the middle / mean of the two middles). -/
def statMedian (vals : List ℚ) : Option ℚ :=
  specMedianOfSorted (List.insertionSort (fun a b : ℚ => a ≤ b) vals)

/- A three-event sample for player "A": one barrel (speed 100, angle 20),
one fully missing row, one event at speed 90 with a too-high angle. -/
def exW : List BBE :=
  [⟨"A", some 100, some 20⟩, ⟨"A", none, none⟩, ⟨"A", some 90, some 50⟩]

/- A one-event table whose single player is far below the 50-event
minimum. -/
def exSmall : List BBE :=
  [⟨"A", some 100, some 20⟩]

/- An input table in which player "A" has exactly 50 events and player
"B" has exactly 51 (both at or above the 50-event minimum, so nothing is
filtered out). -/
def exBig : List BBE :=
  List.replicate 50 ⟨"A", some 90, some 20⟩
    ++ List.replicate 51 ⟨"B", some 80, some 10⟩

/- An empty league table, enough for exercising the comparison's error
path (none of its columns are read before the division). -/
def lgEx : LeagueValues := ⟨[], [], [], [], [], [], [], []⟩

instance : DecidableEq (Except PyError SummaryStats) := fun x y =>
  match x, y with
  | .error a, .error b =>
    if h : a = b then .isTrue (by rw [h])
    else .isFalse (fun hc => h (Except.error.inj hc))
  | .ok a, .ok b =>
    if h : a = b then .isTrue (by rw [h])
    else .isFalse (fun hc => h (Except.ok.inj hc))
  | .error _, .ok _ => .isFalse (fun hc => Except.noConfusion hc)
  | .ok _, .error _ => .isFalse (fun hc => Except.noConfusion hc)

/- Membership in `uniqueFirst` is membership in the original list. -/
theorem mem_uniqueFirst (l : List String) (p : String) :
    p ∈ uniqueFirst l ↔ p ∈ l := by
  induction l with
  | nil => simp [uniqueFirst]
  | cons a t ih =>
    simp only [uniqueFirst, List.mem_cons]
    constructor
    · rintro (h | h)
      · exact Or.inl h
      · exact Or.inr (ih.mp (List.mem_filter.mp h).1)
    · rintro (h | h)
      · exact Or.inl h
      · by_cases hpa : p = a
        · exact Or.inl hpa
        · exact Or.inr (List.mem_filter.mpr ⟨ih.mpr h, by simp [hpa]⟩)

/- A player with at least one event is a group key. -/
theorem mem_groupKeys (bbes : List BBE) (p : String)
    (h : 0 < countEvents bbes p) : p ∈ groupKeys bbes := by
  obtain ⟨e, he⟩ := List.exists_mem_of_length_pos h
  have hmem := (List.mem_filter.mp he).1
  have hname : e.batter_name = p := by
    have h2 := (List.mem_filter.mp he).2
    simpa using h2
  unfold groupKeys
  rw [List.mem_insertionSort, mem_uniqueFirst]
  exact List.mem_map.mpr ⟨e, hmem, hname⟩

/- Looking up a key of a keyed `map` association list yields its value. -/
theorem lookup_map_key {β : Type} (f : String → β) {l : List String}
    {p : String} (hp : p ∈ l) :
    List.lookup p (l.map (fun q => (q, f q))) = some (f p) := by
  induction l with
  | nil => cases hp
  | cons a t ih =>
    rw [List.map_cons, List.lookup_cons]
    by_cases hpa : p = a
    · subst hpa
      simp
    · have hb : (p == a) = false := beq_eq_false_iff_ne.mpr hpa
      rw [hb]
      exact ih (by
        rcases List.mem_cons.mp hp with h | h
        · exact absurd h hpa
        · exact h)

/- The two median definitions agree on every sorted list. -/
theorem medianOfSorted_eq_spec (s : List ℚ) :
    medianOfSorted s = specMedianOfSorted s := by
  unfold medianOfSorted specMedianOfSorted
  by_cases h0 : s.length = 0
  · simp [h0]
  · by_cases hpar : s.length % 2 = 1
    · have hidx : (s.length - 1) / 2 = s.length / 2 := by omega
      rw [if_neg h0, if_neg h0, if_pos hpar, hidx]
      have harith : ∀ x : ℚ, (x + x) / 2 = x := fun x => by ring
      rw [harith]
    · have hidx : (s.length - 1) / 2 = s.length / 2 - 1 := by omega
      rw [if_neg h0, if_neg h0, if_neg hpar, hidx]

/- `np.nanmedian` is the standard-median computation on the non-missing
values. -/
theorem nanmedian_eq_statMedian (xs : List (Option ℚ)) :
    nanmedian xs = statMedian (xs.filterMap id) := by
  unfold nanmedian statMedian
  exact medianOfSorted_eq_spec _

/- Counting rows whose angle is in the optimal band equals counting the
non-missing angle values in the band. -/
theorem countP_optimalAngle (l : List BBE) :
    l.countP optimalAngle
      = (l.filterMap (fun e => e.launch_angle)).countP
          (fun a => decide (15 ≤ a) && decide (a ≤ 40)) := by
  induction l with
  | nil => rfl
  | cons e t ih =>
    cases he : e.launch_angle with
    | none => simp [List.countP_cons, List.filterMap_cons, optimalAngle, he, ih]
    | some a => simp [List.countP_cons, List.filterMap_cons, optimalAngle, he, ih]

/- A barrel is in particular a hard-hit ball. -/
theorem isBarrel_hardHit (e : BBE) (h : isBarrel e = true) : hardHit e = true := by
  cases hs : e.launch_speed <;> cases ha : e.launch_angle <;>
    simp [isBarrel, hardHit, hs, ha] at h ⊢ <;> tauto

/- A barrel is in particular in the optimal angle band. -/
theorem isBarrel_optimalAngle (e : BBE) (h : isBarrel e = true) :
    optimalAngle e = true := by
  cases hs : e.launch_speed <;> cases ha : e.launch_angle <;>
    simp [isBarrel, optimalAngle, hs, ha] at h ⊢ <;> tauto

/- Strict elementwise comparison is monotone in the score. -/
theorem optLt_mono {v w : ℚ} (hvw : v ≤ w) (x : Option ℚ)
    (h : optLt x v = true) : optLt x w = true := by
  cases x with
  | none => simp [optLt] at h
  | some y =>
    simp [optLt] at h ⊢
    exact lt_of_lt_of_le h hvw

/- Weak elementwise comparison is monotone in the score. -/
theorem optLe_mono {v w : ℚ} (hvw : v ≤ w) (x : Option ℚ)
    (h : optLe x v = true) : optLe x w = true := by
  cases x with
  | none => simp [optLe] at h
  | some y =>
    simp [optLe] at h ⊢
    exact le_trans h hvw

/- Strict comparison implies weak comparison at the same score. -/
theorem optLt_optLe {v : ℚ} (x : Option ℚ) (h : optLt x v = true) :
    optLe x v = true := by
  cases x with
  | none => simp [optLt] at h
  | some y =>
    simp [optLt] at h
    simp [optLe]
    exact le_of_lt h

/- Weak comparison at a smaller score implies strict comparison at a
larger one. -/
theorem optLe_optLt {v w : ℚ} (hvw : v < w) (x : Option ℚ)
    (h : optLe x v = true) : optLt x w = true := by
  cases x with
  | none => simp [optLe] at h
  | some y =>
    simp [optLe] at h
    simp [optLt]
    exact lt_of_le_of_lt h hvw

/- The weak count splits into the strict count plus the tie count. -/
theorem countP_le_split (D : List ℚ) (v : ℚ) :
    D.countP (fun x => decide (x ≤ v))
      = D.countP (fun x => decide (x < v)) + D.countP (fun x => decide (x = v)) := by
  induction D with
  | nil => rfl
  | cons a t ih =>
    rcases lt_trichotomy a v with h | h | h
    · have h1 : a ≤ v := le_of_lt h
      have h2 : ¬ a = v := ne_of_lt h
      simp [List.countP_cons, ih, h, h1, h2]
      omega
    · subst h
      simp [List.countP_cons, ih]
      omega
    · have h1 : ¬ a ≤ v := not_le.mpr h
      have h2 : ¬ a < v := not_lt.mpr (le_of_lt h)
      have h3 : ¬ a = v := (ne_of_gt h)
      simp [List.countP_cons, ih, h1, h2, h3]

/-- C7: the minimum-sample filter at `minCount = 50` keeps the table a
sublist of the original (no row altered, order preserved), keeps every
event of a player with at least 50 events, and removes every event of a
player with fewer than 50 events. -/
theorem c7_filter_min_events (bbes : List BBE) (p : String) :
    (filterMinEvents bbes 50).Sublist bbes ∧
    (50 ≤ countEvents bbes p →
      playerEvents (filterMinEvents bbes 50) p = playerEvents bbes p) ∧
    (countEvents bbes p < 50 →
      playerEvents (filterMinEvents bbes 50) p = []) := by
  refine ⟨List.filter_sublist _, ?_, ?_⟩
  · intro h
    unfold playerEvents filterMinEvents
    rw [List.filter_filter]
    apply List.filter_congr
    intro e he
    by_cases hep : e.batter_name = p
    · simp [hep, h]
    · simp [hep]
  · intro h
    unfold playerEvents filterMinEvents
    rw [List.filter_filter]
    rw [List.filter_eq_nil_iff]
    intro e he
    simp only [Bool.and_eq_true, decide_eq_true_eq]
    rintro ⟨h1, h2⟩
    rw [h1] at h2
    omega

/-- C7 witness: on a one-event table the filtered table is a sublist and
the lone under-threshold player's events are all removed. -/
theorem c7_filter_min_events_witness :
    (filterMinEvents exSmall 50).Sublist exSmall ∧
    playerEvents (filterMinEvents exSmall 50) "A" = [] := by
  have h := c7_filter_min_events exSmall "A"
  exact ⟨h.1, h.2.2 (by decide)⟩

/-- C5: for a player with at least one event, `optimal_angle_pct` is 100
times the count of that player's non-missing launch angles lying in
[15, 40], divided by the player's total event count (missing-angle events
counted in the denominator only). -/
theorem c5_optimal_pct (bbes : List BBE) (p : String)
    (h : 0 < countEvents bbes p) :
    List.lookup p (get_optimal_pcts bbes)
      = some (100 * (((playerEvents bbes p).filterMap (fun e => e.launch_angle)).countP
          (fun a => decide (15 ≤ a) && decide (a ≤ 40)) : ℚ)
        / (countEvents bbes p : ℚ)) := by
  unfold get_optimal_pcts
  rw [lookup_map_key _ (mem_groupKeys bbes p h)]
  rw [← countP_optimalAngle]
  unfold countEvents
  congr 1
  ring

/-- C5 witness: player "A" of `exW` has one of three events in the optimal
band (the missing-angle event counts only in the denominator), giving
100/3. -/
theorem c5_optimal_pct_witness :
    List.lookup "A" (get_optimal_pcts exW) = some (100 / 3) := by
  have h := c5_optimal_pct exW "A" (by decide)
  rw [h]
  have e1 : ((playerEvents exW "A").filterMap (fun e => e.launch_angle)).countP
      (fun a => decide (15 ≤ a) && decide (a ≤ 40)) = 1 := by decide
  have e2 : countEvents exW "A" = 3 := by decide
  simp only [e1, e2]
  norm_num

/-- C6: for every player with at least one event, the aggregator's
`median_launch_speed` equals the standard statistical median of the
player's non-missing launch speeds (in particular NaN, i.e. `none`, when
all speeds are missing). -/
theorem c6_median_launch_speed (bbes : List BBE) (p : String)
    (h : 0 < countEvents bbes p) :
    List.lookup p (get_median_launch_speeds bbes)
      = some (statMedian
          (((playerEvents bbes p).map (fun e => e.launch_speed)).filterMap id)) := by
  unfold get_median_launch_speeds
  rw [lookup_map_key _ (mem_groupKeys bbes p h)]
  rw [nanmedian_eq_statMedian]

/-- C6 witness: player "A" of `exW` has non-missing speeds 100 and 90, so
the aggregated median is their average 95. -/
theorem c6_median_launch_speed_witness :
    List.lookup "A" (get_median_launch_speeds exW) = some (some 95) := by
  have h := c6_median_launch_speed exW "A" (by decide)
  rw [h]
  have e1 : ((playerEvents exW "A").map (fun e => e.launch_speed)).filterMap id
      = [100, 90] := by decide
  rw [e1]
  have e2 : List.insertionSort (fun a b : ℚ => a ≤ b) [100, 90] = [90, 100] := by
    decide
  rw [statMedian, e2]
  simp [specMedianOfSorted]
  norm_num

/-- C10: for a player with at least one event, `barrel_pct` never exceeds
`hard_hit_pct` nor `optimal_angle_pct`: every barrel is counted by both
other numerators over the same denominator. -/
theorem c10_barrel_le (bbes : List BBE) (p : String)
    (h : 0 < countEvents bbes p) (b hh o : ℚ)
    (hb : List.lookup p (get_barrel_pcts bbes) = some b)
    (hhh : List.lookup p (get_hardhit_pcts bbes) = some hh)
    (ho : List.lookup p (get_optimal_pcts bbes) = some o) :
    b ≤ hh ∧ b ≤ o := by
  have hp := mem_groupKeys bbes p h
  unfold get_barrel_pcts at hb
  rw [lookup_map_key _ hp] at hb
  unfold get_hardhit_pcts at hhh
  rw [lookup_map_key _ hp] at hhh
  unfold get_optimal_pcts at ho
  rw [lookup_map_key _ hp] at ho
  have hb' := (Option.some.inj hb).symm
  have hh' := (Option.some.inj hhh).symm
  have ho' := (Option.some.inj ho).symm
  subst hb' hh' ho'
  have hn : (0 : ℚ) < ((playerEvents bbes p).length : ℚ) := by
    exact_mod_cast h
  constructor
  · apply mul_le_mul_of_nonneg_right _ (by norm_num : (0:ℚ) ≤ 100)
    apply (div_le_div_iff_of_pos_right hn).mpr
    exact_mod_cast List.countP_mono_left (fun e _ => isBarrel_hardHit e)
  · apply mul_le_mul_of_nonneg_right _ (by norm_num : (0:ℚ) ≤ 100)
    apply (div_le_div_iff_of_pos_right hn).mpr
    exact_mod_cast List.countP_mono_left (fun e _ => isBarrel_optimalAngle e)

/-- C10 witness: for player "A" of `exW` all three percentages are 100/3
and the two inequalities hold. -/
theorem c10_barrel_le_witness :
    (100 / 3 : ℚ) ≤ 100 / 3 ∧ (100 / 3 : ℚ) ≤ 100 / 3 := by
  have e1 : (playerEvents exW "A").countP isBarrel = 1 := by decide
  have e2 : (playerEvents exW "A").countP hardHit = 1 := by decide
  have e3 : (playerEvents exW "A").countP optimalAngle = 1 := by decide
  have e4 : (playerEvents exW "A").length = 3 := by decide
  have hm := mem_groupKeys exW "A" (by decide)
  have hb : List.lookup "A" (get_barrel_pcts exW) = some (100 / 3) := by
    unfold get_barrel_pcts
    rw [lookup_map_key _ hm, e1, e4]
    norm_num
  have hhh : List.lookup "A" (get_hardhit_pcts exW) = some (100 / 3) := by
    unfold get_hardhit_pcts
    rw [lookup_map_key _ hm, e2, e4]
    norm_num
  have ho : List.lookup "A" (get_optimal_pcts exW) = some (100 / 3) := by
    unfold get_optimal_pcts
    rw [lookup_map_key _ hm, e3, e4]
    norm_num
  exact c10_barrel_le exW "A" (by decide) (100 / 3) (100 / 3) (100 / 3) hb hhh ho

/-- C2: evaluating `get_data` on a table where "A" has 50 events and "B"
has 51 shows the `BBEs` column misaligned with the rows: `hitter_name` is
in sorted order ["A", "B"] while `BBEs` is in `value_counts` order
[51, 50], so row "A" of the league table carries event_count 51 although
"A" has 50 events. -/
theorem c2_bbes_misaligned :
    (get_data exBig).2.hitter_name = ["A", "B"]
      ∧ (get_data exBig).2.BBEs = [51, 50]
      ∧ countEvents exBig "A" = 50 ∧ (51 ≠ 50) := by
  refine ⟨by decide, by decide, by decide, by decide⟩

/-- C3 counterexample: requesting a player with zero events makes the
comparison fail with `ZeroDivisionError` (from
`len(hitter[...]) / len(hitter)`), which is not the `PlayerNotFound`
failure the claim asserts. -/
theorem c3_counterexample :
    comparePlayer exSmall lgEx "B" = Except.error PyError.ZeroDivisionError
      ∧ (Except.error PyError.ZeroDivisionError
          ≠ (Except.error PyError.PlayerNotFound : Except PyError SummaryStats)) := by
  refine ⟨by decide, by decide⟩

/-- C3 amended: whenever the requested player name has zero events in the
event table, the comparison computation fails with a division error
(`ZeroDivisionError`), producing no comparison record. -/
theorem c3_zero_events_error (bbes : List BBE) (league : LeagueValues)
    (p : String) (h : countEvents bbes p = 0) :
    comparePlayer bbes league p = Except.error PyError.ZeroDivisionError := by
  have h' : (playerEvents bbes p).length = 0 := h
  unfold comparePlayer
  simp [h']

/-- C3 witness: the name "Nobody" has zero events in `exSmall`, and the
comparison indeed returns the division error. -/
theorem c3_zero_events_error_witness :
    comparePlayer exSmall lgEx "Nobody" = Except.error PyError.ZeroDivisionError :=
  c3_zero_events_error exSmall lgEx "Nobody" (by decide)

/- The executable name comparison agrees with the standard String order. -/
theorem nameLe_iff (a b : String) : nameLe a b = true ↔ a ≤ b := by
  simp only [nameLe, Bool.not_eq_true', decide_eq_false_iff_not]
  rw [String.le_iff_toList_le]
  rw [show (a.toList ≤ b.toList) = ¬ (b.toList < a.toList) from propext (not_lt.symm)]
  exact Iff.rfl

/-- C1 counterexample: on the spec's own scenario (distribution
[50, 60, 70, 80, 90], value 70) the code's percentile (scipy default
kind='rank') is 60, while the claimed mean-rank formula
100 × (L + 0.5 × E) / N gives 50. -/
theorem c1_counterexample :
    percentileofscore ([50, 60, 70, 80, 90].map some) (some 70) = some 60
      ∧ 100 * ((2 : ℚ) + 0.5 * 1) / 5 = 50 ∧ ((60 : ℚ) ≠ 50) := by
  refine ⟨?_, by norm_num, by norm_num⟩
  simp only [percentileofscore, List.map_cons, List.map_nil]
  rw [if_neg (by decide), if_neg (by decide)]
  have e1 : (([50, 60, 70, 80, 90] : List ℚ).map some).countP
      (fun x => optLt x 70) = 2 := by decide
  have e2 : (([50, 60, 70, 80, 90] : List ℚ).map some).countP
      (fun x => optLe x 70) = 3 := by decide
  simp only [List.map_cons, List.map_nil] at e1 e2
  simp only [e1, e2]
  norm_num

/-- C1 amended: for a non-empty NaN-free distribution, the code computes
scipy's kind='rank' percentile: with strict-less count L and tie count E,
the result is 50 × (L + (L + E) + t) / N where t is 1 when E > 0 and 0
otherwise (equivalently 100 × (L + 0.5 × (E + 1)) / N on a tie and
100 × L / N otherwise); on the scenario distribution with value 70 this
gives 60, not 50. -/
theorem c1_rank_formula (D : List ℚ) (v : ℚ) (hD : D ≠ []) :
    percentileofscore (D.map some) (some v)
      = some (50 * ((D.countP (fun x => decide (x < v)) : ℚ)
          + ((D.countP (fun x => decide (x < v)) : ℚ)
            + (D.countP (fun x => decide (x = v)) : ℚ))
          + (if 0 < D.countP (fun x => decide (x = v)) then (1 : ℚ) else 0))
        / (D.length : ℚ)) := by
  have hlt : (D.map some).countP (fun x => optLt x v)
      = D.countP (fun x => decide (x < v)) := by
    rw [List.countP_map]; rfl
  have hle : (D.map some).countP (fun x => optLe x v)
      = D.countP (fun x => decide (x ≤ v)) := by
    rw [List.countP_map]; rfl
  simp only [percentileofscore]
  rw [if_neg (by simp), if_neg (by simpa using hD)]
  simp only [hlt, hle, countP_le_split, List.length_map]
  have hite : (if D.countP (fun x => decide (x < v))
        < D.countP (fun x => decide (x < v)) + D.countP (fun x => decide (x = v))
      then (1 : ℕ) else 0)
      = (if 0 < D.countP (fun x => decide (x = v)) then (1 : ℕ) else 0) := by
    by_cases hE : 0 < D.countP (fun x => decide (x = v))
    · rw [if_pos (by omega), if_pos hE]
    · rw [if_neg (by omega), if_neg hE]
  simp only [hite]
  congr 1
  push_cast
  ring

/-- C1 witness: on the scenario distribution the amended formula
evaluates to 60. -/
theorem c1_rank_formula_witness :
    percentileofscore ([50, 60, 70, 80, 90].map some) (some 70) = some 60 := by
  have h := c1_rank_formula [50, 60, 70, 80, 90] 70 (by decide)
  rw [h]
  have e1 : ([50, 60, 70, 80, 90] : List ℚ).countP (fun x => decide (x < 70)) = 2 := by
    decide
  have e2 : ([50, 60, 70, 80, 90] : List ℚ).countP (fun x => decide (x = 70)) = 1 := by
    decide
  simp only [e1, e2]
  norm_num

/-- C4 counterexample: a NaN entry in the distribution is not excluded;
on D = [1, NaN] with value 2 the code yields NaN while percentileRank on
the NaN-free distribution [1] yields 100. -/
theorem c4_counterexample :
    percentileofscore [some 1, none] (some 2) = none
      ∧ percentileofscore [some 1] (some 2) = some 100
      ∧ (none : Option ℚ) ≠ some 100 := by
  refine ⟨by simp [percentileofscore], ?_, by simp⟩
  simp only [percentileofscore]
  rw [if_neg (by decide), if_neg (by decide)]
  have e1 : ([some 1] : List (Option ℚ)).countP (fun x => optLt x 2) = 1 := by
    decide
  have e2 : ([some 1] : List (Option ℚ)).countP (fun x => optLe x 2) = 1 := by
    decide
  simp only [e1, e2]
  norm_num

/-- C4 amended: with scipy's default nan_policy='propagate', any NaN
entry in the distribution makes the percentile NaN (and a NaN score is
NaN as well); NaN entries are never excluded from N, L, E. -/
theorem c4_nan_propagates (D : List (Option ℚ)) (v : Option ℚ)
    (h : none ∈ D) : percentileofscore D v = none := by
  cases v with
  | none => rfl
  | some w =>
    have hA : D.any (fun x => decide (x = none)) = true :=
      List.any_eq_true.mpr ⟨none, h, by simp⟩
    simp [percentileofscore, hA]

/-- C4 witness: the all-NaN singleton distribution yields NaN for a
non-NaN value. -/
theorem c4_nan_propagates_witness :
    percentileofscore [none] (some 0) = none :=
  c4_nan_propagates [none] (some 0) (by decide)

/-- C9: the percentile rank is monotonically non-decreasing in the
queried value: for a fixed distribution, whenever both queries return a
numeric (non-NaN) result, the result at the smaller value is at most the
result at the larger one. -/
theorem c9_percentile_monotone (D : List (Option ℚ)) (v1 v2 r1 r2 : ℚ)
    (hv : v1 ≤ v2)
    (h1 : percentileofscore D (some v1) = some r1)
    (h2 : percentileofscore D (some v2) = some r2) : r1 ≤ r2 := by
  simp only [percentileofscore] at h1 h2
  by_cases hA : D.any (fun x => decide (x = none)) = true
  · rw [if_pos hA] at h1
    exact absurd h1 (by simp)
  · rw [if_neg hA] at h1 h2
    by_cases hN : D.length = 0
    · rw [if_pos hN] at h1
      exact absurd h1 (by simp)
    · rw [if_neg hN] at h1 h2
      have e1 := Option.some.inj h1
      have e2 := Option.some.inj h2
      subst e1 e2
      apply mul_le_mul_of_nonneg_right _ (by positivity)
      apply Nat.cast_le.mpr
      have hL : D.countP (fun x => optLt x v1) ≤ D.countP (fun x => optLt x v2) :=
        List.countP_mono_left (fun x _ => optLt_mono hv x)
      have hR : D.countP (fun x => optLe x v1) ≤ D.countP (fun x => optLe x v2) :=
        List.countP_mono_left (fun x _ => optLe_mono hv x)
      have hLR : D.countP (fun x => optLt x v1) ≤ D.countP (fun x => optLe x v1) :=
        List.countP_mono_left (fun x _ => optLt_optLe x)
      rcases eq_or_lt_of_le hv with he | hlt
      · subst he
        exact le_refl _
      · have hRL : D.countP (fun x => optLe x v1) ≤ D.countP (fun x => optLt x v2) :=
          List.countP_mono_left (fun x _ => optLe_optLt hlt x)
        split_ifs <;> omega

/-- C9 witness: on the singleton distribution [1], the percentile at 0 is
0 and at 2 is 100, and the theorem yields 0 ≤ 100. -/
theorem c9_percentile_monotone_witness :
    (0 : ℚ) ≤ 2 ∧ percentileofscore [some 1] (some 0) = some 0
      ∧ percentileofscore [some 1] (some 2) = some 100 ∧ (0 : ℚ) ≤ 100 := by
  have ha : percentileofscore [some 1] (some 0) = some 0 := by
    simp only [percentileofscore]
    rw [if_neg (by decide), if_neg (by decide)]
    have e1 : ([some 1] : List (Option ℚ)).countP (fun x => optLt x 0) = 0 := by
      decide
    have e2 : ([some 1] : List (Option ℚ)).countP (fun x => optLe x 0) = 0 := by
      decide
    simp only [e1, e2]
    norm_num
  have hb : percentileofscore [some 1] (some 2) = some 100 := by
    simp only [percentileofscore]
    rw [if_neg (by decide), if_neg (by decide)]
    have e1 : ([some 1] : List (Option ℚ)).countP (fun x => optLt x 2) = 1 := by
      decide
    have e2 : ([some 1] : List (Option ℚ)).countP (fun x => optLe x 2) = 1 := by
      decide
    simp only [e1, e2]
    norm_num
  exact ⟨by norm_num, ha, hb,
    c9_percentile_monotone [some 1] 0 2 0 100 (by norm_num) ha hb⟩
